import Mathlib

/-!
Verification of the gaia operator core (safety guard, operator loop, executor)
and the heuristic role detector, as a shallow embedding in Lean 4.

Modelling conventions:
* Go strings are modelled as Lean `String`s; indexing/slicing is done at the
  character level, which coincides with Go's byte-level operations on the
  ASCII inputs that occur in practice.
* Go `float64` scores are modelled as exact rationals (`ℚ`): every score
  arithmetic operation in the source (division by list length, doubling,
  capping at 1.0, adding 0.5, comparing against 0.2/0.4/0.5) is exact.
* Go maps with `string` keys are modelled as association lists; the score map
  of the role detector is built in insertion order (Go map iteration order is
  unspecified, which only matters on exact score ties).
* Effectful capabilities (confirm function, shell runner, planner/LLM calls)
  are modelled as pure oracle functions passed in as parameters; the planner
  oracle yields, for each loop iteration, the parsed outcome of
  `Planner.Decide`.
-/

set_option autoImplicit false

namespace Gaia

/-! ## Character and string helpers (Go `strings` package operations) -/

/-- ASCII whitespace as recognised by Go's `unicode.IsSpace` / regexp `\s`
restricted to the ASCII range handled by `Char.isWhitespace`. -/
def isWs (c : Char) : Bool := c.isWhitespace

/-- First index (if any) at which `sub` occurs in `s` (Go `strings.Index`). -/
def listIndexOf (s sub : List Char) : Option Nat :=
  if sub.isPrefixOf s then some 0
  else
    match s with
    | [] => none
    | _ :: t => (listIndexOf t sub).map (· + 1)

/-- Go `strings.Contains` on character lists. -/
def listContains (s sub : List Char) : Bool := (listIndexOf s sub).isSome

/-- Go `strings.Contains`. -/
def strContains (s sub : String) : Bool := listContains s.data sub.data

/-- Go `strings.HasPrefix`. -/
def strStartsWith (s pre : String) : Bool := pre.data.isPrefixOf s.data

/-- Go `strings.HasSuffix`. -/
def strEndsWith (s suf : String) : Bool := suf.data.isSuffixOf s.data

/-- Lower-case one ASCII character (Go `strings.ToLower` on ASCII input). -/
def lowerChar (c : Char) : Char :=
  if 'A' ≤ c ∧ c ≤ 'Z' then Char.ofNat (c.toNat + 32) else c

/-- Go `strings.ToLower` (ASCII). -/
def strLower (s : String) : String := ⟨s.data.map lowerChar⟩

/-- Go `strings.TrimSpace`. -/
def strTrim (s : String) : String :=
  ⟨(s.data.dropWhile isWs).reverse.dropWhile isWs |>.reverse⟩

/-- Accumulating splitter for `strFields` (current field collected reversed). -/
def fieldsAux : List Char → List Char → List String
  | [], cur => if cur.isEmpty then [] else [⟨cur.reverse⟩]
  | c :: t, cur =>
    if isWs c then
      if cur.isEmpty then fieldsAux t [] else ⟨cur.reverse⟩ :: fieldsAux t []
    else fieldsAux t (c :: cur)

/-- Go `strings.Fields`: whitespace-separated fields. -/
def strFields (s : String) : List String := fieldsAux s.data []

/-- Go `s[:n]` as characters. -/
def strTake (s : String) (n : Nat) : String := ⟨s.data.take n⟩

/-- Go `s[n:]` as characters. -/
def strDrop (s : String) (n : Nat) : String := ⟨s.data.drop n⟩

/-- Character-level length (equals Go byte length on ASCII). -/
def strLen (s : String) : Nat := s.data.length

/-! ## Tools and the safety guard (`api/operator/safety.go`, `tools.go`) -/

/-- The `RiskLevel` enumeration from `safety.go`. -/
inductive RiskLevel where
  | low
  | medium
  | high
  | critical
deriving DecidableEq, Repr

/-- Numeric value of the Go `iota` enumeration, used for ordered comparison. -/
def RiskLevel.toNat : RiskLevel → Nat
  | .low => 0
  | .medium => 1
  | .high => 2
  | .critical => 3

/-- Name of the built-in shell tool (`tools.go`). -/
def RunCmdName : String := "run_cmd"

/-- A tool execution result: stdout, stderr, optional error message. -/
abbrev ExecResult := String × String × Option String

/-- A tool (`tools.go`): name, risk level, and an optional executor function
(a `nil` Go function pointer is `none`). Description and schema are omitted:
they only feed the LLM prompt. -/
structure Tool where
  name : String
  riskLevel : RiskLevel
  exec : Option (List (String × String) → ExecResult)

/-- Go `args[k]` with the zero-value default `""`. -/
def getArg (args : List (String × String)) (k : String) : String :=
  ((args.find? (fun p => p.1 == k)).map (·.2)).getD ""

/-- Go `v, ok := args[k]` presence-aware lookup. -/
def lookupArg (args : List (String × String)) (k : String) : Option String :=
  (args.find? (fun p => p.1 == k)).map (·.2)

/-- Model of `GuardOptions` from `safety.go`; the confirmation capability returns
`(confirmed, error)` with the error modelled as `Option String`. -/
structure GuardOptions where
  denylist : List String
  allowlist : List String
  confirmMediumRisk : Bool
  dryRun : Bool
  yes : Bool
  confirmFunc : Option (String → Bool × Option String)

/-- The denylist scan of `Allow`: first entry whose trimmed lower-cased form
occurs in the lower-cased command. -/
def findDeny (cmdLower : String) : List String → Option String
  | [] => none
  | d :: rest =>
    if strContains cmdLower (strLower (strTrim d)) then some d
    else findDeny cmdLower rest

/-- The allowlist scan of `Allow`: some entry prefix- or substring-matches. -/
def allowedByAllowlist (cmdLower : String) (allowlist : List String) : Bool :=
  allowlist.any (fun a =>
    strStartsWith cmdLower (strLower (strTrim a)) ||
    strContains cmdLower (strLower (strTrim a)))

/-- Model of `formatToolCallForConfirm` from `safety.go`. -/
def formatToolCallForConfirm (name : String) (args : List (String × String)) : String :=
  match (if name = RunCmdName then lookupArg args "cmd" else none) with
  | some cmd => "Run command: " ++ cmd
  | none =>
    name ++ " with args: " ++ " ".intercalate (strFields (strTrim (getArg args "cmd")))

/-- The tail of `Allow` after the run_cmd denylist/allowlist checks: dry-run
short-circuit and medium-risk confirmation. -/
def allowConfirmPhase (tool : Tool) (args : List (String × String))
    (opts : GuardOptions) : Bool × String :=
  if opts.dryRun then (true, "")
  else if RiskLevel.medium.toNat ≤ tool.riskLevel.toNat ∧
      opts.confirmMediumRisk = true ∧ opts.yes = false then
    match opts.confirmFunc with
    | none => (true, "")
    | some f =>
      let r := f (formatToolCallForConfirm tool.name args)
      match r.2 with
      | some e => (false, "confirmation failed: " ++ e)
      | none => if r.1 then (true, "") else (false, "user declined")
  else (true, "")

/-- Model of `Allow` from `safety.go`: returns `(allowed, reason)`. -/
def Allow (tool? : Option Tool) (args : List (String × String))
    (opts : GuardOptions) : Bool × String :=
  match tool? with
  | none => (false, "no tool")
  | some tool =>
    if tool.riskLevel = RiskLevel.critical then
      (false, "tool " ++ tool.name ++ " is not allowed (critical risk)")
    else
      let cmd := strTrim (getArg args "cmd")
      if cmd = "" ∧ tool.name = RunCmdName then (false, "empty command")
      else if tool.name = RunCmdName then
        let cmdLower := strLower cmd
        match findDeny cmdLower opts.denylist with
        | some d => (false, "command blocked by denylist: " ++ d)
        | none =>
          if 0 < opts.allowlist.length ∧ allowedByAllowlist cmdLower opts.allowlist = false then
            (false, "command not in allowlist")
          else allowConfirmPhase tool args opts
      else allowConfirmPhase tool args opts

/-! ## Executor (`api/operator/executor.go`) -/

/-- Package-level default `MaxOutputBytes` constant. -/
def MaxOutputBytesDefault : Int := 4096

/-- The `Executor` struct. -/
structure Executor where
  maxOutputBytes : Int

/-- Model of `NewExecutor`: defaults the limit to 4096 when the argument is ≤ 0. -/
def NewExecutor (maxBytes : Int) : Executor :=
  if maxBytes ≤ 0 then ⟨MaxOutputBytesDefault⟩ else ⟨maxBytes⟩

/-- Model of `Executor.truncate`: cut to the limit and append the marker when the
length exceeds it (character-level model of Go's byte slicing). -/
def Executor.truncate (e : Executor) (s : String) : String :=
  let max := if e.maxOutputBytes ≤ 0 then MaxOutputBytesDefault else e.maxOutputBytes
  if (strLen s : Int) ≤ max then s
  else strTake s max.toNat ++ "\n(truncated)"

/-- Model of `Executor.Run`: run the tool's executor and truncate stdout and stderr
independently. -/
def Executor.run (e : Executor) (tool? : Option Tool)
    (args : List (String × String)) : ExecResult :=
  match tool? with
  | none => ("", "", some "nil tool or exec")
  | some tool =>
    match tool.exec with
    | none => ("", "", some "nil tool or exec")
    | some ex =>
      let r := ex args
      (e.truncate r.1, e.truncate r.2.1, r.2.2)

/-- Model of `FormatObservation` from `executor.go`. -/
def FormatObservation (stdout stderr : String) (execErr : Option String) : String :=
  strTrim ((if stdout ≠ "" then "stdout:\n" ++ stdout ++ "\n" else "") ++
    (if stderr ≠ "" then "stderr:\n" ++ stderr ++ "\n" else "") ++
    (match execErr with
     | some e => "error: " ++ e
     | none => ""))

/-! ## Conversation state and registry (`state.go`, `tools.go`) -/

/-- One conversation turn. -/
structure Step where
  role : String
  content : String
deriving DecidableEq, Repr

/-- Loop state: goal plus conversation steps. -/
structure State where
  goal : String
  steps : List Step
deriving DecidableEq, Repr

/-- Model of `State.AppendObservation`: add a user message. -/
def State.appendObservation (s : State) (content : String) : State :=
  { s with steps := s.steps ++ [⟨"user", content⟩] }

/-- Model of `State.AppendDecision`: add an assistant message holding the raw JSON. -/
def State.appendDecision (s : State) (raw : String) : State :=
  { s with steps := s.steps ++ [⟨"assistant", raw⟩] }

/-- Model of `State.LastAnswerOrPartial`: most recent assistant content, else the goal. -/
def State.lastAnswerOrPartial (s : State) : String :=
  match s.steps.reverse.find? (fun st => st.role == "assistant") with
  | some st => st.content
  | none => s.goal

/-- A shell runner capability (`ShellRunner.Run`); `none` models a nil Go
interface value. -/
abbrev ShellFun := String → ExecResult

/-- The `run_cmd` tool registered by `DefaultToolRegistry`. -/
def runCmdTool (shell : Option ShellFun) : Tool :=
  { name := RunCmdName
    riskLevel := RiskLevel.medium
    exec := some (fun args =>
      match shell with
      | none => ("", "", none)
      | some run => run (getArg args "cmd")) }

/-- Lookup in the registry produced by `DefaultToolRegistry` (only `run_cmd`). -/
def registryGet (shell : Option ShellFun) (name : String) : Option Tool :=
  if name = RunCmdName then some (runCmdTool shell) else none

/-! ## Operator loop (`api/operator/loop.go`) -/

/-- A parsed planner decision (`Decision` in `state.go`). -/
structure Decision where
  action : String
  content : String
  name : String
  args : List (String × String)

/-- The outcome of one `Planner.Decide` call, as consumed by the loop:
either a parse failure with an error message, or a decision plus the raw
model output. -/
inductive DecideOutcome where
  | parseFail (errMsg : String)
  | ok (dec : Decision) (raw : String)

/-- A planner oracle: the `Decide` outcome of each successive loop iteration. -/
abbrev PlannerFun := Nat → DecideOutcome

/-- The errors `Run` can pair with its answer. -/
inductive LoopErr where
  | emptyGoal
  | maxSteps
  | parseFailures (msg : String)
deriving DecidableEq, Repr

/-- What `Run` produces: the final conversation state (exposed for
verification), the returned answer, and the returned error (if any). -/
structure RunOutcome where
  state : State
  answer : String
  error : Option LoopErr
deriving DecidableEq, Repr

/-- Model of `RunOptions` from `loop.go` (`Debug` and `Model` are omitted: they only
affect stderr logging and the LLM request). -/
structure RunOptions where
  maxSteps : Int
  dryRun : Bool
  yes : Bool
  denylist : List String
  allowlist : List String
  confirmMediumRisk : Bool
  confirmFunc : Option (String → Bool × Option String)
  shellRunner : Option ShellFun
  maxOutputBytes : Int
  maxParseFailures : Int

/-- The `GuardOptions` value `Run` builds from its options. -/
def guardOptsOf (opts : RunOptions) : GuardOptions :=
  { denylist := opts.denylist
    allowlist := opts.allowlist
    confirmMediumRisk := opts.confirmMediumRisk
    dryRun := opts.dryRun
    yes := opts.yes
    confirmFunc := opts.confirmFunc }

/-- The `for step := 0; step < maxSteps` loop body of `Run`, with the
remaining iteration count made explicit.  `g` is the guard options, `shell`
the shell runner, `maxOutputBytes` the executor limit, `maxPF` the (already
defaulted) parse-failure budget. -/
def loopGo (g : GuardOptions) (shell : Option ShellFun) (maxOutputBytes : Int)
    (planner : PlannerFun) (maxPF : Nat) :
    Nat → Nat → Nat → State → RunOutcome
  | _, 0, _, st => ⟨st, st.lastAnswerOrPartial, some .maxSteps⟩
  | stepIdx, r + 1, parseFailures, st =>
    match planner stepIdx with
    | .parseFail msg =>
      let pf := parseFailures + 1
      let st := st.appendObservation
        ("error: Invalid response: " ++ msg ++ ". Respond with valid JSON only.")
      if maxPF ≤ pf then ⟨st, st.lastAnswerOrPartial, some (.parseFailures msg)⟩
      else loopGo g shell maxOutputBytes planner maxPF (stepIdx + 1) r pf st
    | .ok dec raw =>
      let st := st.appendDecision raw
      if dec.action = "answer" then ⟨st, strTrim dec.content, none⟩
      else
        match registryGet shell dec.name with
        | none =>
          loopGo g shell maxOutputBytes planner maxPF (stepIdx + 1) r 0
            (st.appendObservation ("error: Unknown tool: " ++ dec.name))
        | some tool =>
          let res := Allow (some tool) dec.args g
          if res.1 = false then
            loopGo g shell maxOutputBytes planner maxPF (stepIdx + 1) r 0
              (st.appendObservation ("blocked: " ++ res.2))
          else if g.dryRun then
            let obs := "dry_run: Would run: " ++ dec.name ++
              (match lookupArg dec.args "cmd" with
               | some c => " " ++ c
               | none => "")
            loopGo g shell maxOutputBytes planner maxPF (stepIdx + 1) r 0
              (st.appendObservation obs)
          else
            let ex := (NewExecutor maxOutputBytes).run (some tool) dec.args
            loopGo g shell maxOutputBytes planner maxPF (stepIdx + 1) r 0
              (st.appendObservation (FormatObservation ex.1 ex.2.1 ex.2.2))

/-- Model of `Run` from `loop.go`: reject an empty goal, default the bounds, and run
the loop. -/
def Run (goal : String) (opts : RunOptions) (planner : PlannerFun) : RunOutcome :=
  let goal := strTrim goal
  if goal = "" then ⟨⟨goal, []⟩, "", some .emptyGoal⟩
  else
    let maxSteps : Int := if opts.maxSteps ≤ 0 then 10 else opts.maxSteps
    let maxPF : Int := if opts.maxParseFailures ≤ 0 then 2 else opts.maxParseFailures
    loopGo (guardOptsOf opts) opts.shellRunner opts.maxOutputBytes planner
      maxPF.toNat 0 maxSteps.toNat 0 ⟨goal, []⟩

/-! ## Heuristic role detector (`detectRoleHeuristic` in the api package) -/

/-- Rational score map; Go's `map[string]float64` in insertion order. -/
abbrev ScoreMap := List (String × ℚ)

/-- Presence-aware map read (`score, ok := scores[role]`). -/
def alistGet? : ScoreMap → String → Option ℚ
  | [], _ => none
  | p :: t, k => if p.1 = k then some p.2 else alistGet? t k

/-- Map write: update in place if present, else append. -/
def alistInsert : ScoreMap → String → ℚ → ScoreMap
  | [], k, v => [(k, v)]
  | p :: t, k, v => if p.1 = k then (k, v) :: t else p :: alistInsert t k v

/-- The `strings.Index`-based flexible in-order phrase-word scan of
`detectRoleHeuristic`: each word must be found starting one character past
the previous word's position. -/
def flexAux (s : List Char) : List (List Char) → Nat → Bool
  | [], _ => true
  | w :: rest, start =>
    match listIndexOf (s.drop start) w with
    | none => false
    | some idx => flexAux s rest (start + idx + 1)

/-- Flexible in-order match of all phrase words in `s`. -/
def flexMatch (s : String) (words : List String) : Bool :=
  flexAux s.data (words.map (·.data)) 0

/-- Question words that boost the `describe` role when they start the message. -/
def questionWords : List String := ["what", "explain", "describe", "tell", "how"]

/-- First scoring pass (multi-word phrase keywords), accumulating
`(matches, phraseMatches)`. -/
def phraseStep (requestPortion messageLower : String) (acc : Nat × Nat)
    (kw : String) : Nat × Nat :=
  if strContains kw " " then
    if strContains requestPortion kw then (acc.1 + 1, acc.2 + 4)
    else if strContains messageLower kw then (acc.1 + 1, acc.2 + 2)
    else
      let pws := strFields kw
      if 2 ≤ pws.length then
        if flexMatch requestPortion pws then (acc.1 + 1, acc.2 + 3)
        else if flexMatch messageLower pws then (acc.1 + 1, acc.2 + 1)
        else acc
      else acc
  else acc

/-- Double-counting guard of the second pass: the single word `kw` belongs to
some phrase keyword of the same role that itself matches. -/
def partOfPhrase (keywords : List String) (kw : String)
    (requestPortion messageLower : String) : Bool :=
  keywords.any (fun pkw =>
    strContains pkw " " &&
    (strFields pkw).any (fun w => w == kw) &&
    (strContains requestPortion pkw ||
     flexMatch requestPortion (strFields pkw) ||
     strContains messageLower pkw))

/-- Second scoring pass (single-word keywords): +2 when found in the request
portion, +1 when only in the full message, skipped when already counted as
part of a matched phrase. -/
def singleStep (keywords : List String) (requestPortion messageLower : String)
    (m : Nat) (kw : String) : Nat :=
  if strContains kw " " then m
  else
    let mR := strContains requestPortion kw
    let mF := strContains messageLower kw
    if mR || mF then
      if partOfPhrase keywords kw requestPortion messageLower then m
      else if mR then m + 2 else m + 1
    else m

/-- Weighted `(matches, phraseMatches)` counters for one role, including the
`describe` question-word boost. -/
def roleMatchCounts (keywords : List String) (role : String)
    (messageWords : List String) (requestPortion messageLower : String) : Nat × Nat :=
  let m0 : Nat :=
    if role = "describe" ∧ messageWords ≠ [] ∧ messageWords.headD "" ∈ questionWords
    then 3 else 0
  let pp := keywords.foldl (phraseStep requestPortion messageLower) (m0, 0)
  (keywords.foldl (singleStep keywords requestPortion messageLower) pp.1, pp.2)

/-- One iteration of the keyword-scoring loop: score a role as
`matches / len(keywords)`, doubled and capped at `1.0` when any phrase-level
match contributed; roles without keywords or without matches get no entry. -/
def scoreStep (getKw : String → List String) (messageWords : List String)
    (requestPortion messageLower : String) (scores : ScoreMap) (role : String) : ScoreMap :=
  let keywords := getKw role
  if keywords.isEmpty then scores
  else
    let mc := roleMatchCounts keywords role messageWords requestPortion messageLower
    if 0 < mc.1 then
      let base : ℚ := (mc.1 : ℚ) / (keywords.length : ℚ)
      let base := if 0 < mc.2 then (if 1 < base * 2 then 1 else base * 2) else base
      alistInsert scores role base
    else scores

/-- The full keyword-scoring loop over the available roles. -/
def buildScores (getKw : String → List String) (availableRoles : List String)
    (messageWords : List String) (requestPortion messageLower : String) : ScoreMap :=
  availableRoles.foldl (scoreStep getKw messageWords requestPortion messageLower) []

/-- Regexp `\w` (ASCII word character). -/
def isWordChar (c : Char) : Bool := c.isAlphanum || c == '_'

/-- Maximal runs of word characters, for `\b(...)\b` whole-word matching. -/
def wordRunsAux : List Char → List Char → List (List Char)
  | [], cur => if cur.isEmpty then [] else [cur.reverse]
  | c :: t, cur =>
    if isWordChar c then wordRunsAux t (c :: cur)
    else if cur.isEmpty then wordRunsAux t []
    else cur.reverse :: wordRunsAux t []

/-- All maximal word-character runs of a string. -/
def wordRuns (s : String) : List (List Char) := wordRunsAux s.data []

/-- Whole-word regex matching `\b(w1|w2|...)\b` for fully word-character alternatives: some maximal
word run equals one of the words. -/
def wordBoundMatch (s : String) (words : List String) : Bool :=
  (wordRuns s).any (fun run => words.any (fun w => run == w.data))

/-- Boundary-style match for the operator alternatives of the third code
pattern: the operator occurs with a word character on both sides (Go's `\b`
at a non-word character requires an adjacent word character). -/
def operMatchAux (pat : List Char) : Bool → List Char → Bool
  | _, [] => false
  | prevIsWord, c :: t =>
    (prevIsWord && pat.isPrefixOf (c :: t) &&
      (match (c :: t).drop pat.length with
       | x :: _ => isWordChar x
       | [] => false)) ||
    operMatchAux pat (isWordChar c) t

/-- Operator pattern match over a whole string. -/
def operMatch (s : String) (pat : String) : Bool := operMatchAux pat.data false s.data

/-- Word alternatives of the first code regex pattern. -/
def codePatternWords1 : List String :=
  ["def", "class", "function", "const", "let", "var", "import", "from",
   "return", "if", "else", "for", "while", "try", "catch"]

/-- Word alternatives of the fourth code regex pattern. -/
def codePatternWords4 : List String :=
  ["public", "private", "protected", "static", "final", "abstract"]

/-- Model of `codePatterns`: any of the four code-syntax regexes matches the original
message. -/
def hasCodePattern (message : String) : Bool :=
  wordBoundMatch message codePatternWords1 ||
  message.data.any (fun c => ("\x7b\x7d();".data).contains c) ||
  (wordBoundMatch message ["function"] ||
   operMatch message "=>" || operMatch message "->" || operMatch message "::") ||
  wordBoundMatch message codePatternWords4

/-- Lowercase ASCII letter (regexp `[a-z]`). -/
def isLowerAZ (c : Char) : Bool := 'a' ≤ c && c ≤ 'z'

/-- Matcher for the tail `(\s+[^\s]+)*\s*$` of the shell-shape regex. -/
def shellRest : Nat → List Char → Bool
  | _, [] => true
  | 0, _ => false
  | fuel + 1, c :: t =>
    if isWs c then
      let rest := (c :: t).dropWhile isWs
      if rest.isEmpty then true
      else
        let tok := rest.takeWhile (fun x => !(isWs x))
        if tok.isEmpty then false
        else shellRest fuel (rest.dropWhile (fun x => !(isWs x)))
    else false

/-- The shell-command shape regex `^\s*\$?\s*[a-z]+(\s+[^\s]+)*\s*$`, applied
to the trimmed message. -/
def shellShape (trimmed : String) : Bool :=
  let s := trimmed.data.dropWhile isWs
  let s := match s with
    | '$' :: t => t
    | _ => s
  let s := s.dropWhile isWs
  if (s.takeWhile isLowerAZ).isEmpty then false
  else shellRest s.length (s.dropWhile isLowerAZ)

/-- Add `0.5` to a role's score, capped at `1.0` (map read defaults to `0`). -/
def boostRole (scores : ScoreMap) (role : String) : ScoreMap :=
  let v := (alistGet? scores role).getD 0 + 1/2
  alistInsert scores role (if 1 < v then 1 else v)

/-- Highest-scoring role (strict improvement over `("", 0)`, scanning the
score map in insertion order). -/
def findBest (scores : ScoreMap) : String × ℚ :=
  scores.foldl (fun best p => if best.2 < p.2 then p else best) ("", 0)

/-- The `branch` half of the specificity override. -/
def overrideBranch (scores : ScoreMap) (best : String × ℚ) : String × ℚ :=
  match alistGet? scores "branch" with
  | some b => if (1 : ℚ)/5 ≤ b then ("branch", b) else best
  | none => best

/-- Specificity override: when the winner is `shell` or `code`, prefer
`commit` (then `branch`) whenever it scored at least `0.2`. -/
def applyOverride (scores : ScoreMap) (best : String × ℚ) : String × ℚ :=
  if best.1 = "shell" ∨ best.1 = "code" then
    match alistGet? scores "commit" with
    | some c => if (1 : ℚ)/5 ≤ c then ("commit", c) else overrideBranch scores best
    | none => overrideBranch scores best
  else best

/-- The final stage of `detectRoleHeuristic`: pick the best role, fix the
minimum threshold from it, apply the specificity override, and accept or
return no match. -/
def detectFinalize (scores : ScoreMap) : String × ℚ :=
  let best := findBest scores
  let minThreshold : ℚ := if best.1 = "describe" then 1/2 else 2/5
  let best := applyOverride scores best
  if best.1 ≠ "" ∧ minThreshold ≤ best.2 then best else ("", 0)

/-- Model of `detectRoleHeuristic`: returns `(role, score)`; the human-readable reason
string of the Go version is omitted. -/
def detectRoleHeuristic (getKw : String → List String) (message : String)
    (availableRoles : List String) : String × ℚ :=
  let messageLower := strLower (strTrim message)
  let messageWords := strFields messageLower
  let requestPortion :=
    if 50 < messageWords.length then
      " ".intercalate (messageWords.drop (messageWords.length - 50))
    else if 500 < strLen messageLower then
      strDrop messageLower (strLen messageLower - 500)
    else messageLower
  let scores := buildScores getKw availableRoles messageWords requestPortion messageLower
  let scores :=
    if hasCodePattern message ∧ availableRoles.contains "code" = true then
      boostRole scores "code"
    else scores
  let hasCommitKeywords :=
    strContains messageLower "commit" || strContains messageLower "changelog"
  let hasBranchKeywords := strContains messageLower "branch" &&
    (strContains messageLower "create" || strContains messageLower "new" ||
     strContains messageLower "generate")
  let scores :=
    if hasCommitKeywords = false ∧ hasBranchKeywords = false ∧
        shellShape (strTrim message) = true ∧
        0 < messageWords.length ∧ messageWords.length < 10 ∧
        availableRoles.contains "shell" = true then
      boostRole scores "shell"
    else scores
  detectFinalize scores

/-! ### Default keyword configuration (`config.go` defaults) -/

/-- Default `auto_role.keywords.shell`. -/
def shellKeywords : List String :=
  ["command", "run", "execute", "terminal", "bash", "zsh", "sh", "shell",
   "cd", "ls", "grep", "find", "mkdir", "rm", "cp", "mv", "cat", "echo",
   "sudo", "chmod", "chown", "ps", "kill", "pkill", "systemctl", "service",
   "install", "uninstall", "package", "apt", "yum", "brew", "pip", "npm"]

/-- Default `auto_role.keywords.code`. -/
def codeKeywords : List String :=
  ["function", "class", "def", "import", "return", "if", "else", "for", "while",
   "variable", "array", "list", "dict", "string", "int", "bool", "type",
   "python", "javascript", "java", "go", "rust", "c++", "c#", "php", "ruby",
   "code", "programming", "algorithm", "api", "endpoint", "json", "xml",
   "database", "sql", "query", "table", "schema", "migration"]

/-- Default `auto_role.keywords.describe`. -/
def describeKeywords : List String :=
  ["what", "what does", "explain", "describe", "meaning", "definition",
   "how does", "tell me about", "what is", "what are", "help me understand"]

/-- Default `auto_role.keywords.commit`. -/
def commitKeywords : List String :=
  ["commit message", "generate commit", "create commit", "write commit",
   "make commit", "conventional commit", "changelog", "commit msg",
   "git commit message", "commit"]

/-- Default `auto_role.keywords.branch`. -/
def branchKeywords : List String :=
  ["create branch", "new branch", "make branch", "generate branch",
   "branch name", "git branch", "checkout branch", "switch branch", "branch"]

/-- The default keyword configuration as a lookup function. -/
def defaultKeywords : String → List String
  | "shell" => shellKeywords
  | "code" => codeKeywords
  | "describe" => describeKeywords
  | "commit" => commitKeywords
  | "branch" => branchKeywords
  | _ => []

/-! ### Specification abbreviations used by the verification -/

/-- The optional score `scoreStep` assigns to one role, as a standalone
function (used to characterise `buildScores`). -/
def scoreOpt (getKw : String → List String) (messageWords : List String)
    (requestPortion messageLower : String) (role : String) : Option ℚ :=
  let keywords := getKw role
  if keywords.isEmpty then none
  else
    let mc := roleMatchCounts keywords role messageWords requestPortion messageLower
    if 0 < mc.1 then
      let base : ℚ := (mc.1 : ℚ) / (keywords.length : ℚ)
      some (if 0 < mc.2 then (if 1 < base * 2 then 1 else base * 2) else base)
    else none

/-- Options of the end-to-end scenario: `MaxSteps` 1 and a stub shell runner
answering `"ok"`. -/
def stubShellOpts : RunOptions :=
  { maxSteps := 1, dryRun := false, yes := false, denylist := [], allowlist := [],
    confirmMediumRisk := false, confirmFunc := none,
    shellRunner := some (fun _ => ("ok", "", none)), maxOutputBytes := 0,
    maxParseFailures := 0 }

/-- Planner of the end-to-end scenario: always decide the `run_cmd` tool call
with argument `df -h`. -/
def stubPlanner : PlannerFun :=
  fun _ => .ok ⟨"tool", "", "run_cmd", [("cmd", "df -h")]⟩ "raw0"

/-! ## Helper lemmas -/

theorem listContains_nil_sub (s : List Char) : listContains s [] = true := by
  cases s <;> simp [listContains, listIndexOf, List.isPrefixOf]

theorem strContains_of_trim_empty (s d : String) (h : strTrim d = "") :
    strContains s (strLower (strTrim d)) = true := by
  rw [h]
  exact listContains_nil_sub s.data

/-- The denylist scan returns the first matching entry when one exists. -/
theorem findDeny_finds (c : String) (l : List String)
    (h : ∃ d ∈ l, strContains c (strLower (strTrim d)) = true) :
    ∃ d ∈ l, strContains c (strLower (strTrim d)) = true ∧ findDeny c l = some d := by
  induction l with
  | nil => simp at h
  | cons d rest ih =>
    by_cases hd : strContains c (strLower (strTrim d)) = true
    · exact ⟨d, List.mem_cons_self d rest, hd, by simp [findDeny, hd]⟩
    · obtain ⟨e, he, hP⟩ := h
      rcases List.mem_cons.1 he with rfl | he2
      · exact absurd hP hd
      · obtain ⟨e2, he3, hP2, hfind⟩ := ih ⟨e, he2, hP⟩
        exact ⟨e2, List.mem_cons_of_mem _ he3, hP2, by simp [findDeny, hd, hfind]⟩

/-- A run_cmd call with a non-empty command and a matching denylist entry is
blocked with a reason naming the first matching entry. -/
theorem allow_denylist_core (args : List (String × String)) (opts : GuardOptions)
    (shell : Option ShellFun)
    (hcmd : strTrim (getArg args "cmd") ≠ "")
    (hdeny : ∃ d ∈ opts.denylist,
      strContains (strLower (strTrim (getArg args "cmd"))) (strLower (strTrim d)) = true) :
    ∃ d ∈ opts.denylist,
      strContains (strLower (strTrim (getArg args "cmd"))) (strLower (strTrim d)) = true ∧
      Allow (some (runCmdTool shell)) args opts =
        (false, "command blocked by denylist: " ++ d) := by
  obtain ⟨d, hmem, hP, hfind⟩ := findDeny_finds _ _ hdeny
  exact ⟨d, hmem, hP, by simp [Allow, runCmdTool, hcmd, hfind]⟩

/-! ## Claims about the safety guard -/

/-- C1: for every tool whose risk level is `Critical`, for every args map and
every `GuardOptions` value (including `dryRun = true` and `yes = true`, and
any denylist/allowlist/confirm settings), `Allow` returns `allowed = false`. -/
theorem critical_always_blocked (tool : Tool) (args : List (String × String))
    (opts : GuardOptions) (h : tool.riskLevel = RiskLevel.critical) :
    (Allow (some tool) args opts).1 = false := by
  simp [Allow, h]

theorem critical_always_blocked_witness :
    (Allow (some ⟨"fmt_disk", RiskLevel.critical, none⟩) [("cmd", "ls")]
      ⟨["x"], ["ls"], true, true, true, some (fun _ => (true, none))⟩).1 = false :=
  critical_always_blocked _ _ _ rfl

/-- C2: a run_cmd call whose lower-cased command contains (case-insensitively)
some denylist entry is blocked with a reason naming a matching entry, whatever
the allowlist says (the denylist is applied first); in particular with
denylist `["sudo"]` and command `"sudo ls"` the result is
`(false, "command blocked by denylist: sudo")`. -/
theorem denylist_blocks_allow (args : List (String × String)) (opts : GuardOptions)
    (shell : Option ShellFun)
    (hcmd : strTrim (getArg args "cmd") ≠ "")
    (hdeny : ∃ d ∈ opts.denylist,
      strContains (strLower (strTrim (getArg args "cmd"))) (strLower (strTrim d)) = true) :
    (Allow (some (runCmdTool shell)) args opts).1 = false ∧
    ∃ d ∈ opts.denylist,
      strContains (strLower (strTrim (getArg args "cmd"))) (strLower (strTrim d)) = true ∧
      (Allow (some (runCmdTool shell)) args opts).2 = "command blocked by denylist: " ++ d := by
  obtain ⟨d, hmem, hP, heq⟩ := allow_denylist_core args opts shell hcmd hdeny
  exact ⟨by rw [heq], d, hmem, hP, by rw [heq]⟩

theorem denylist_blocks_allow_witness :
    Allow (some (runCmdTool none)) [("cmd", "sudo ls")]
      ⟨["sudo"], ["sudo ls"], false, false, false, none⟩ =
      (false, "command blocked by denylist: sudo") ∧
    (Allow (some (runCmdTool none)) [("cmd", "sudo ls")]
      ⟨["sudo"], ["sudo ls"], false, false, false, none⟩).1 = false :=
  ⟨by decide,
   (denylist_blocks_allow [("cmd", "sudo ls")]
      ⟨["sudo"], ["sudo ls"], false, false, false, none⟩ none (by decide)
      ⟨"sudo", by decide, by decide⟩).1⟩

/-- C3: when `dryRun` is set, or `yes` is set (with `confirmMediumRisk` set),
`Allow` never invokes the confirmation capability: its result is the same for
every confirm function. -/
theorem confirm_capability_unused (tool? : Option Tool) (args : List (String × String))
    (opts : GuardOptions) (f g : Option (String → Bool × Option String))
    (h : opts.dryRun = true ∨ (opts.yes = true ∧ opts.confirmMediumRisk = true)) :
    Allow tool? args { opts with confirmFunc := f } =
    Allow tool? args { opts with confirmFunc := g } := by
  have hphase : ∀ t : Tool,
      allowConfirmPhase t args { opts with confirmFunc := f } =
      allowConfirmPhase t args { opts with confirmFunc := g } := by
    intro t
    rcases h with hdry | ⟨hyes, _⟩
    · simp [allowConfirmPhase, hdry]
    · simp [allowConfirmPhase, hyes]
  cases tool? with
  | none => rfl
  | some tool => simp only [Allow, hphase]

theorem confirm_capability_unused_witness :
    Allow (some (runCmdTool none)) [("cmd", "df -h")]
      ⟨[], [], true, true, false, some (fun _ => (false, some "confirm must not run"))⟩ =
    Allow (some (runCmdTool none)) [("cmd", "df -h")]
      ⟨[], [], true, true, false, some (fun _ => (true, none))⟩ :=
  confirm_capability_unused (some (runCmdTool none)) [("cmd", "df -h")]
    ⟨[], [], true, true, false, none⟩ _ _ (Or.inl rfl)

/-- C10 (counterexample): the denylist `["sudo", " "]` contains a
whitespace-only entry, the command `"sudo ls"` is non-empty, yet the block
reason names `"sudo"` — not the whitespace entry — because the scan stops at
the first matching entry. -/
theorem emptyish_denylist_counterexample :
    Allow (some (runCmdTool none)) [("cmd", "sudo ls")]
      ⟨["sudo", " "], [], false, false, false, none⟩ =
      (false, "command blocked by denylist: sudo") ∧
    ("command blocked by denylist: sudo" : String) ≠ "command blocked by denylist: " ++ " " :=
  ⟨by decide, by decide⟩

/-- C10 (amended): if the denylist contains an entry that is empty or
whitespace-only, every run_cmd call with a non-empty command is blocked
(`Allow` returns `false`); the block reason names the first denylist entry
whose trimmed lower-cased form occurs in the command — the emptyish entry
itself when no earlier entry matches. -/
theorem emptyish_denylist_blocks (args : List (String × String)) (opts : GuardOptions)
    (shell : Option ShellFun)
    (hws : ∃ d ∈ opts.denylist, strTrim d = "")
    (_hne : getArg args "cmd" ≠ "") :
    (Allow (some (runCmdTool shell)) args opts).1 = false ∧
    (strTrim (getArg args "cmd") ≠ "" →
      ∃ d ∈ opts.denylist,
        strContains (strLower (strTrim (getArg args "cmd"))) (strLower (strTrim d)) = true ∧
        (Allow (some (runCmdTool shell)) args opts).2 =
          "command blocked by denylist: " ++ d) := by
  have hex : strTrim (getArg args "cmd") ≠ "" →
      ∃ d ∈ opts.denylist,
        strContains (strLower (strTrim (getArg args "cmd"))) (strLower (strTrim d)) = true := by
    intro _
    obtain ⟨d, hmem, hd⟩ := hws
    exact ⟨d, hmem, strContains_of_trim_empty _ _ hd⟩
  constructor
  · by_cases hc : strTrim (getArg args "cmd") = ""
    · simp [Allow, runCmdTool, hc]
    · obtain ⟨d, hmem, hP, heq⟩ := allow_denylist_core args opts shell hc (hex hc)
      rw [heq]
  · intro hc
    obtain ⟨d, hmem, hP, heq⟩ := allow_denylist_core args opts shell hc (hex hc)
    exact ⟨d, hmem, hP, by rw [heq]⟩

theorem emptyish_denylist_blocks_witness :
    (Allow (some (runCmdTool none)) [("cmd", "ls -la")]
      ⟨[" "], [], false, false, false, none⟩).1 = false :=
  (emptyish_denylist_blocks [("cmd", "ls -la")] ⟨[" "], [], false, false, false, none⟩
    none ⟨" ", by decide, by decide⟩ (by decide)).1

/-! ## Claims about the executor -/

/-- C8: `Executor.Run` truncates stdout and stderr independently; with a
positive limit (the limit defaults to 4096 when configured ≤ 0), a string no
longer than the limit is returned unchanged, and a longer string is cut to
exactly the limit with the suffix `"\n(truncated)"` appended. -/
theorem executor_truncates_independently
    (mb : Int) (hmb : 0 < mb) (s : String)
    (e : Executor) (tool : Tool) (ex : List (String × String) → ExecResult)
    (hex : tool.exec = some ex) (args : List (String × String))
    (mb0 : Int) (hmb0 : mb0 ≤ 0) :
    ((strLen s : Int) ≤ mb → (NewExecutor mb).truncate s = s) ∧
    (mb < (strLen s : Int) →
      (NewExecutor mb).truncate s = strTake s mb.toNat ++ "\n(truncated)") ∧
    e.run (some tool) args =
      (e.truncate (ex args).1, e.truncate (ex args).2.1, (ex args).2.2) ∧
    NewExecutor mb0 = ⟨MaxOutputBytesDefault⟩ := by
  have hne : ¬ mb ≤ 0 := not_le.2 hmb
  refine ⟨?_, ?_, ?_, ?_⟩
  · intro hle
    simp [NewExecutor, Executor.truncate, hne, hle]
  · intro hlt
    simp [NewExecutor, Executor.truncate, hne, not_le.2 hlt]
  · simp [Executor.run, hex]
  · simp [NewExecutor, hmb0]

theorem executor_truncates_independently_witness :
    (NewExecutor 20).truncate "abcdefghijklmnopqrstuvwxyz0123" =
      strTake "abcdefghijklmnopqrstuvwxyz0123" 20 ++ "\n(truncated)" ∧
    25 < strLen ((NewExecutor 20).truncate "abcdefghijklmnopqrstuvwxyz0123") ∧
    strEndsWith ((NewExecutor 20).truncate "abcdefghijklmnopqrstuvwxyz0123")
      "(truncated)" = true :=
  ⟨(executor_truncates_independently 20 (by decide) "abcdefghijklmnopqrstuvwxyz0123"
      ⟨20⟩ ⟨"t", RiskLevel.low, some (fun _ => ("", "", none))⟩ _ rfl [] (-1)
      (by decide)).2.1 (by decide),
   by decide, by decide⟩

/-! ## Claims about the operator loop -/

/-- C4: `Run` with `MaxSteps ≤ 0` behaves as with 10 iterations; and in the
end-to-end scenario (`MaxSteps = 1`, stub shell runner answering "ok", a
first decision calling `run_cmd` with `df -h` that the guard allows), after
the single iteration the state holds exactly one assistant decision and one
user observation containing "ok", and `Run` returns the last assistant
content (`LastAnswerOrPartial`) paired with the max-steps error. -/
theorem run_max_steps_partial :
    (∀ (goal : String) (opts : RunOptions) (planner : PlannerFun),
       opts.maxSteps ≤ 0 →
       Run goal opts planner = Run goal { opts with maxSteps := 10 } planner) ∧
    (Run "why is disk full?" stubShellOpts stubPlanner).state.steps =
      [⟨"assistant", "raw0"⟩, ⟨"user", "stdout:\nok"⟩] ∧
    strContains "stdout:\nok" "ok" = true ∧
    (Run "why is disk full?" stubShellOpts stubPlanner).answer =
      (Run "why is disk full?" stubShellOpts stubPlanner).state.lastAnswerOrPartial ∧
    (Run "why is disk full?" stubShellOpts stubPlanner).answer = "raw0" ∧
    (Run "why is disk full?" stubShellOpts stubPlanner).error = some LoopErr.maxSteps := by
  refine ⟨?_, by decide, by decide, by decide, by decide, by decide⟩
  intro goal opts planner h
  simp [Run, guardOptsOf, h]

theorem run_max_steps_partial_witness :
    Run "g" { stubShellOpts with maxSteps := -5 } stubPlanner =
      Run "g" { stubShellOpts with maxSteps := 10 } stubPlanner :=
  run_max_steps_partial.1 "g" { stubShellOpts with maxSteps := -5 } stubPlanner (by decide)

/-- C5: on a parse failure the loop appends the corrective "respond with
valid JSON only" observation and continues; when the consecutive failure
count reaches `MaxParseFailures` (defaulted to 2 when ≤ 0) it terminates
early with `LastAnswerOrPartial()` and a parse-failure error; a successful
decide resets the consecutive counter (the iteration's outcome does not
depend on it). -/
theorem parse_failure_handling :
    (∀ (g : GuardOptions) (shell : Option ShellFun) (mob : Int) (planner : PlannerFun)
       (maxPF i r pf : Nat) (st : State) (msg : String),
       planner i = .parseFail msg → pf + 1 < maxPF →
       loopGo g shell mob planner maxPF i (r + 1) pf st =
         loopGo g shell mob planner maxPF (i + 1) r (pf + 1)
           (st.appendObservation
             ("error: Invalid response: " ++ msg ++ ". Respond with valid JSON only."))) ∧
    (∀ (g : GuardOptions) (shell : Option ShellFun) (mob : Int) (planner : PlannerFun)
       (maxPF i r pf : Nat) (st : State) (msg : String),
       planner i = .parseFail msg → maxPF ≤ pf + 1 →
       loopGo g shell mob planner maxPF i (r + 1) pf st =
         ⟨st.appendObservation
            ("error: Invalid response: " ++ msg ++ ". Respond with valid JSON only."),
          (st.appendObservation
            ("error: Invalid response: " ++ msg ++ ". Respond with valid JSON only.")).lastAnswerOrPartial,
          some (LoopErr.parseFailures msg)⟩) ∧
    (∀ (goal : String) (opts : RunOptions) (planner : PlannerFun),
       opts.maxParseFailures ≤ 0 →
       Run goal opts planner = Run goal { opts with maxParseFailures := 2 } planner) ∧
    (∀ (g : GuardOptions) (shell : Option ShellFun) (mob : Int) (planner : PlannerFun)
       (maxPF i r pf1 pf2 : Nat) (st : State) (dec : Decision) (raw : String),
       planner i = .ok dec raw →
       loopGo g shell mob planner maxPF i (r + 1) pf1 st =
         loopGo g shell mob planner maxPF i (r + 1) pf2 st) := by
  refine ⟨?_, ?_, ?_, ?_⟩
  · intro g shell mob planner maxPF i r pf st msg hp hlt
    simp only [loopGo, hp]
    rw [if_neg (by omega : ¬ maxPF ≤ pf + 1)]
  · intro g shell mob planner maxPF i r pf st msg hp hle
    simp only [loopGo, hp]
    rw [if_pos hle]
  · intro goal opts planner h
    simp [Run, guardOptsOf, h]
  · intro g shell mob planner maxPF i r pf1 pf2 st dec raw hp
    simp only [loopGo, hp]

theorem parse_failure_handling_witness :
    loopGo ⟨[], [], false, false, false, none⟩ none 0 (fun _ => .parseFail "bad json")
        3 0 1 0 ⟨"g", []⟩ =
      loopGo ⟨[], [], false, false, false, none⟩ none 0 (fun _ => .parseFail "bad json")
        3 1 0 1
        ((⟨"g", []⟩ : State).appendObservation
          ("error: Invalid response: " ++ "bad json" ++ ". Respond with valid JSON only.")) :=
  parse_failure_handling.1 ⟨[], [], false, false, false, none⟩ none 0
    (fun _ => .parseFail "bad json") 3 0 0 0 ⟨"g", []⟩ "bad json" rfl (by decide)

/-- C9: a successfully parsed tool decision naming a tool absent from the
registry makes the loop append an "Unknown tool: <name>" observation and
continue with the next iteration, with the consecutive parse-failure counter
at zero (not incremented). -/
theorem unknown_tool_continues (g : GuardOptions) (shell : Option ShellFun) (mob : Int)
    (planner : PlannerFun) (maxPF i r pf : Nat) (st : State) (dec : Decision) (raw : String)
    (hp : planner i = .ok dec raw) (ha : ¬ dec.action = "answer")
    (hr : registryGet shell dec.name = none) :
    loopGo g shell mob planner maxPF i (r + 1) pf st =
      loopGo g shell mob planner maxPF (i + 1) r 0
        ((st.appendDecision raw).appendObservation
          ("error: Unknown tool: " ++ dec.name)) := by
  simp only [loopGo, hp, hr]
  rw [if_neg ha]

theorem unknown_tool_continues_witness :
    loopGo ⟨[], [], false, false, false, none⟩ none 0
        (fun _ => .ok ⟨"tool", "", "frobnicate", []⟩ "rawX") 2 0 1 1 ⟨"g", []⟩ =
      loopGo ⟨[], [], false, false, false, none⟩ none 0
        (fun _ => .ok ⟨"tool", "", "frobnicate", []⟩ "rawX") 2 1 0 0
        (((⟨"g", []⟩ : State).appendDecision "rawX").appendObservation
          ("error: Unknown tool: " ++ "frobnicate")) :=
  unknown_tool_continues ⟨[], [], false, false, false, none⟩ none 0
    (fun _ => .ok ⟨"tool", "", "frobnicate", []⟩ "rawX") 2 0 0 1 ⟨"g", []⟩
    ⟨"tool", "", "frobnicate", []⟩ "rawX" rfl (by decide)
    (by simp [registryGet, RunCmdName])

/-! ## Lemmas about the score map and the detector's final stage -/

theorem alistGet_insert (l : ScoreMap) (k : String) (v : ℚ) (k2 : String) :
    alistGet? (alistInsert l k v) k2 = if k2 = k then some v else alistGet? l k2 := by
  induction l with
  | nil =>
    by_cases h : k2 = k
    · subst h; simp [alistInsert, alistGet?]
    · simp [alistInsert, alistGet?, h, Ne.symm h]
  | cons p t ih =>
    by_cases hp : p.1 = k
    · by_cases h2 : k2 = k
      · subst h2; simp [alistInsert, alistGet?, hp]
      · have hpk2 : ¬ p.1 = k2 := by rw [hp]; exact Ne.symm h2
        simp [alistInsert, alistGet?, hp, h2, Ne.symm h2, hpk2]
    · by_cases h2 : p.1 = k2
      · have hk : ¬ k2 = k := fun hh => hp (h2.trans hh)
        simp [alistInsert, alistGet?, hp, h2, hk]
      · simp [alistInsert, alistGet?, hp, h2, ih]

theorem scoreStep_get (getKw : String → List String) (mw : List String)
    (rp ml : String) (scores : ScoreMap) (r role : String) :
    alistGet? (scoreStep getKw mw rp ml scores r) role =
      if role = r ∧ (scoreOpt getKw mw rp ml r).isSome then scoreOpt getKw mw rp ml r
      else alistGet? scores role := by
  unfold scoreStep scoreOpt
  by_cases hk : (getKw r).isEmpty
  · simp [hk]
  · by_cases hm : 0 < (roleMatchCounts (getKw r) r mw rp ml).1
    · simp only [hk, Bool.false_eq_true, if_neg, ite_false, hm, ite_true, if_pos]
      rw [alistGet_insert]
      by_cases h2 : role = r <;> simp [h2, hm, hk]
    · simp [hk, hm]

theorem foldl_scoreStep_get (getKw : String → List String) (mw : List String)
    (rp ml : String) (role : String) (roles : List String) :
    ∀ acc : ScoreMap,
      alistGet? (roles.foldl (scoreStep getKw mw rp ml) acc) role =
        if role ∈ roles ∧ (scoreOpt getKw mw rp ml role).isSome
        then scoreOpt getKw mw rp ml role
        else alistGet? acc role := by
  induction roles with
  | nil => intro acc; simp
  | cons r t ih =>
    intro acc
    rw [List.foldl_cons, ih, scoreStep_get]
    by_cases h1 : role = r
    · subst h1
      by_cases h2 : (scoreOpt getKw mw rp ml role).isSome <;>
        by_cases h3 : role ∈ t <;> simp [h2, h3]
    · by_cases h2 : (scoreOpt getKw mw rp ml role).isSome <;>
        by_cases h3 : role ∈ t <;> simp [h1, h2, h3]

theorem overrideBranch_fst (scores : ScoreMap) (best : String × ℚ) :
    (overrideBranch scores best).1 = "branch" ∨ overrideBranch scores best = best := by
  unfold overrideBranch
  cases alistGet? scores "branch" with
  | none => right; rfl
  | some b =>
    dsimp only
    by_cases h : (1 : ℚ)/5 ≤ b
    · left; rw [if_pos h]
    · right; rw [if_neg h]

theorem applyOverride_fst (scores : ScoreMap) (best : String × ℚ) :
    (applyOverride scores best).1 = "commit" ∨ (applyOverride scores best).1 = "branch" ∨
    applyOverride scores best = best := by
  unfold applyOverride
  by_cases hb : best.1 = "shell" ∨ best.1 = "code"
  · rw [if_pos hb]
    cases alistGet? scores "commit" with
    | none =>
      rcases overrideBranch_fst scores best with h | h
      · right; left; exact h
      · right; right; exact h
    | some c =>
      dsimp only
      by_cases hc : (1 : ℚ)/5 ≤ c
      · left; rw [if_pos hc]
      · rw [if_neg hc]
        rcases overrideBranch_fst scores best with h | h
        · right; left; exact h
        · right; right; exact h
  · rw [if_neg hb]; right; right; rfl

theorem applyOverride_ne_describe (scores : ScoreMap) (best : String × ℚ)
    (h : best.1 ≠ "describe") : (applyOverride scores best).1 ≠ "describe" := by
  rcases applyOverride_fst scores best with h1 | h1 | h1
  · rw [h1]; decide
  · rw [h1]; decide
  · rw [h1]; exact h

/-- The accept-or-reject stage returns either no match or a role whose score
meets that role's own minimum threshold. -/
theorem detectFinalize_spec (scores : ScoreMap) :
    detectFinalize scores = ("", 0) ∨
    ((detectFinalize scores).1 ≠ "" ∧
     (if (detectFinalize scores).1 = "describe" then (1 : ℚ)/2 else 2/5) ≤
       (detectFinalize scores).2) := by
  unfold detectFinalize
  set best := findBest scores with hbest
  by_cases hacc : (applyOverride scores best).1 ≠ "" ∧
      (if best.1 = "describe" then (1 : ℚ)/2 else 2/5) ≤ (applyOverride scores best).2
  · right
    rw [if_pos hacc]
    refine ⟨hacc.1, ?_⟩
    by_cases hd : best.1 = "describe"
    · have hsame : applyOverride scores best = best := by
        unfold applyOverride
        rw [if_neg (by rw [hd]; decide)]
      rw [hsame] at hacc ⊢
      rw [if_pos hd]
      rw [if_pos hd] at hacc
      exact hacc.2
    · have hd2 : (applyOverride scores best).1 ≠ "describe" :=
        applyOverride_ne_describe scores best hd
      rw [if_neg hd2]
      rw [if_neg hd] at hacc
      exact hacc.2
  · left
    rw [if_neg hacc]

/-! ## Claims about the role detector -/

/-- C6: whenever the highest-scoring role is "shell" or "code" but "commit"
also scored at least 0.2, the specificity override selects "commit" with
commit's score; otherwise, if "branch" scored at least 0.2, it selects
"branch" — regardless of the raw shell/code score. In particular the message
"generate git commit message" with the default commit and shell keyword
configuration detects role "commit" (score 0.6), not "shell". -/
theorem specificity_override :
    (∀ (scores : ScoreMap) (best : String × ℚ) (c : ℚ),
       (best.1 = "shell" ∨ best.1 = "code") →
       alistGet? scores "commit" = some c → (1 : ℚ)/5 ≤ c →
       applyOverride scores best = ("commit", c)) ∧
    (∀ (scores : ScoreMap) (best : String × ℚ) (b : ℚ),
       (best.1 = "shell" ∨ best.1 = "code") →
       (alistGet? scores "commit" = none ∨
         ∃ c, alistGet? scores "commit" = some c ∧ c < (1 : ℚ)/5) →
       alistGet? scores "branch" = some b → (1 : ℚ)/5 ≤ b →
       applyOverride scores best = ("branch", b)) ∧
    detectRoleHeuristic defaultKeywords "generate git commit message"
      ["shell", "code", "describe", "commit", "branch"] = ("commit", 3/5) := by
  refine ⟨?_, ?_, by with_unfolding_all decide⟩
  · intro scores best c hbest hget hc
    unfold applyOverride
    rw [if_pos hbest, hget]
    dsimp only
    rw [if_pos hc]
  · intro scores best b hbest hcommit hbget hb
    unfold applyOverride
    rw [if_pos hbest]
    have hbr : overrideBranch scores best = ("branch", b) := by
      unfold overrideBranch
      rw [hbget]
      dsimp only
      rw [if_pos hb]
    rcases hcommit with hnone | ⟨c, hsome, hlt⟩
    · rw [hnone]
      exact hbr
    · rw [hsome]
      dsimp only
      rw [if_neg (not_le.2 hlt)]
      exact hbr

theorem specificity_override_witness :
    applyOverride [("shell", (1 : ℚ)/2), ("commit", 3/10)] ("shell", (1 : ℚ)/2) =
      ("commit", 3/10) :=
  specificity_override.1 [("shell", (1 : ℚ)/2), ("commit", 3/10)] ("shell", (1 : ℚ)/2)
    (3/10) (Or.inl rfl) (by with_unfolding_all decide) (by with_unfolding_all decide)

/-- C7: for every role with a non-empty configured keyword list, the
keyword-phase score is `matches / len(keywords)`, doubled and capped at 1.0
when at least one phrase-level match contributed (roles without matches get
no score); and the detector returns its best role only when that role's score
meets the minimum threshold (0.5 for "describe", 0.4 otherwise), returning
no match (empty role, score 0) otherwise. -/
theorem score_formula_and_threshold :
    (∀ (getKw : String → List String) (roles : List String)
       (messageWords : List String) (requestPortion messageLower : String)
       (role : String),
       role ∈ roles → getKw role ≠ [] →
       alistGet? (buildScores getKw roles messageWords requestPortion messageLower) role =
         (let mc := roleMatchCounts (getKw role) role messageWords requestPortion messageLower
          let base : ℚ := (mc.1 : ℚ) / ((getKw role).length : ℚ)
          if 0 < mc.1 then
            some (if 0 < mc.2 then (if 1 < base * 2 then 1 else base * 2) else base)
          else none)) ∧
    (∀ (getKw : String → List String) (message : String) (roles : List String),
       detectRoleHeuristic getKw message roles = ("", 0) ∨
       ((detectRoleHeuristic getKw message roles).1 ≠ "" ∧
        (if (detectRoleHeuristic getKw message roles).1 = "describe"
         then (1 : ℚ)/2 else 2/5) ≤ (detectRoleHeuristic getKw message roles).2)) := by
  constructor
  · intro getKw roles mw rp ml role hmem hkw
    unfold buildScores
    rw [foldl_scoreStep_get]
    have hs : scoreOpt getKw mw rp ml role =
        (let mc := roleMatchCounts (getKw role) role mw rp ml
         let base : ℚ := (mc.1 : ℚ) / ((getKw role).length : ℚ)
         if 0 < mc.1 then
           some (if 0 < mc.2 then (if 1 < base * 2 then 1 else base * 2) else base)
         else none) := by
      unfold scoreOpt
      rw [if_neg (by simpa [List.isEmpty_iff] using hkw)]
    by_cases h2 : (scoreOpt getKw mw rp ml role).isSome
    · rw [if_pos ⟨hmem, h2⟩, hs]
    · rw [if_neg (fun hc => h2 hc.2), ← hs]
      exact (Option.not_isSome_iff_eq_none.1 h2).symm
  · intro getKw message roles
    show detectFinalize _ = ("", 0) ∨ _
    exact detectFinalize_spec _

theorem score_formula_and_threshold_witness :
    alistGet? (buildScores defaultKeywords ["shell", "code", "describe", "commit", "branch"]
      ["generate", "git", "commit", "message"] "generate git commit message"
      "generate git commit message") "commit" = some (3/5) :=
  (score_formula_and_threshold.1 defaultKeywords
      ["shell", "code", "describe", "commit", "branch"]
      ["generate", "git", "commit", "message"] "generate git commit message"
      "generate git commit message" "commit" (by decide) (by decide)).trans
    (by with_unfolding_all decide)

end Gaia
